import Mathlib

/-!
Shallow embedding of the iMouseGuard rules engine
(iMouseGuard/bin/rules_engine.py) and proofs of the spec claims about it.

Python strings are modelled as lists of characters (`Str`), Python floats
as exact rationals (`ℚ`), and Python dicts with string keys as
insertion-ordered association lists with first-match lookup and
replace-in-place update, the behaviour of `dict.get` / `dict.__setitem__`.
-/

/-- Python strings, modelled as lists of characters. -/
abbrev Str := List Char

/-- The characters of a Lean string literal, used to transcribe the Python
string literals of the source. -/
def strOf (s : String) : Str := s.data

/-- First-match lookup in an association list: `d.get(k)` on a Python dict
whose keys are unique. -/
def dictGet : List (Str × ℚ) → Str → Option ℚ
  | [], _ => none
  | (k, v) :: t, key => if k = key then some v else dictGet t key

/-- In-place update of an association list: `d[k] = v` on a Python dict,
replacing the value at an existing key and appending a missing key. -/
def dictSet : List (Str × ℚ) → Str → ℚ → List (Str × ℚ)
  | [], key, v => [(key, v)]
  | (k, w) :: t, key, v =>
      if k = key then (k, v) :: t else (k, w) :: dictSet t key v

theorem dictGet_dictSet_same (m : List (Str × ℚ)) (k : Str) (v : ℚ) :
    dictGet (dictSet m k v) k = some v := by
  induction m with
  | nil => simp [dictSet, dictGet]
  | cons h t ih =>
      obtain ⟨k', w⟩ := h
      by_cases hk : k' = k
      · simp [dictSet, dictGet, hk]
      · simp [dictSet, dictGet, hk, ih]

theorem dictGet_dictSet_ne (m : List (Str × ℚ)) (k k' : Str) (v : ℚ)
    (h : k' ≠ k) : dictGet (dictSet m k v) k' = dictGet m k' := by
  induction m with
  | nil => simp [dictSet, dictGet, Ne.symm h]
  | cons hd t ih =>
      obtain ⟨k'', w⟩ := hd
      by_cases hk : k'' = k
      · subst hk
        simp [dictSet, dictGet, Ne.symm h]
      · simp [dictSet, dictGet, hk, ih]

/-- The persisted state file content: `{"last_seen": {...}, "last_alert": {...}}`,
keys of the form `"mid:zone"`, values unix timestamps (seconds). -/
structure PersistedState where
  last_seen : List (Str × ℚ)
  last_alert : List (Str × ℚ)
deriving DecidableEq

/-- The composite dict key `f"{mid}:{zone}"`. -/
def mkKey (mid zone : Str) : Str := mid ++ ':' :: zone

/-- Elapsed minutes between a timestamp and the current time:
`(time.time() - ts) / 60.0`, with `now` passed explicitly. -/
def minutes_since (now ts : ℚ) : ℚ := (now - ts) / 60

/-- Zone entry of the config: `{keyword, max_inactive_minutes}`, either
field possibly absent. -/
structure ZoneConf where
  keyword : Option Str
  max_inactive_minutes : Option ℚ
deriving DecidableEq

/-- Monitor entry of the config: `{name, zones}`. -/
structure MonitorConf where
  name : Option Str
  zones : Option (List (Str × ZoneConf))
deriving DecidableEq

/-- The rules config document (`rules.yaml`): any field may be absent, the
engine applies its defaults at each use site. -/
structure Config where
  ws_url : Option Str
  suppress_minutes : Option ℚ
  monitors : Option (List (Str × MonitorConf))
deriving DecidableEq

/-- Whitespace for the purposes of Python `str.strip()`: space, tab,
newline, carriage return, vertical tab, form feed. -/
def pyIsSpace (c : Char) : Bool :=
  c == ' ' || c == '\t' || c == '\n' || c == '\x0d' || c == '\x0b' || c == '\x0c'

/-- Python `s.strip()`: drop whitespace from both ends. -/
def pyStrip (s : Str) : Str :=
  ((s.dropWhile pyIsSpace).reverse.dropWhile pyIsSpace).reverse

/-- Python `s.split(sep, 1)` when `sep` is a single character: `none` when
the separator does not occur, otherwise the parts before and after its
first occurrence. -/
def splitOnce (sep : Char) : Str → Option (Str × Str)
  | [] => none
  | c :: t =>
      if c = sep then some ([], t)
      else match splitOnce sep t with
        | none => none
        | some (a, b) => some (c :: a, b)

/-- Python `s.split(sep)` for a single-character separator: the segments
between occurrences of `sep` (always at least one segment). -/
def pySplitParts (sep : Char) : Str → List Str
  | [] => [[]]
  | c :: t =>
      if c = sep then [] :: pySplitParts sep t
      else match pySplitParts sep t with
        | [] => [[c]]
        | s :: rest => (c :: s) :: rest

theorem pySplitParts_ne_nil (sep : Char) (s : Str) : pySplitParts sep s ≠ [] := by
  cases s with
  | nil => simp [pySplitParts]
  | cons c t =>
      by_cases h : c = sep
      · simp [pySplitParts, h]
      · simp only [pySplitParts, if_neg h]
        cases pySplitParts sep t <;> simp

/-- Head segment of `pySplitParts` is the run of characters before the
first separator. -/
theorem pySplitParts_headD (sep : Char) (s : Str) :
    (pySplitParts sep s).headD [] = s.takeWhile (fun c => !(c == sep)) := by
  induction s with
  | nil => simp [pySplitParts, List.takeWhile]
  | cons c t ih =>
      by_cases h : c = sep
      · simp [pySplitParts, h, List.takeWhile]
      · simp only [pySplitParts, if_neg h]
        have hne := pySplitParts_ne_nil sep t
        cases hs : pySplitParts sep t with
        | nil => exact absurd hs hne
        | cons s rest =>
            rw [hs] at ih
            simp only [List.headD] at ih
            have hb : (c == sep) = false := by simp [h]
            simp [List.takeWhile, hb, ← ih]

/-- `parse_zone_from_cause` of rules_engine.py: if the cause is falsy return
the empty string; split on the first colon; when a second segment exists,
strip it, cut it at the first comma (`.split(",")[0]`) and strip again;
otherwise return the whole cause stripped. -/
def parse_zone_from_cause (cause : Str) : Str :=
  if cause = [] then []
  else match splitOnce ':' cause with
    | some (_, second) => pyStrip ((pySplitParts ',' (pyStrip second)).headD [])
    | none => pyStrip cause

/-- Modelled from the words of the spec sentence on zone-hint extraction:
split on the first colon; if a second segment exists, the hint is that
second segment verbatim, only trimmed of surrounding whitespace; otherwise
the hint is the original cause text trimmed. -/
def parse_zone_spec (cause : Str) : Str :=
  match splitOnce ':' cause with
  | some (_, second) => pyStrip second
  | none => pyStrip cause

/-- The amended reading of the zone-hint extraction: like `parse_zone_spec`
but the second segment is additionally truncated at its first comma (and
trimmed again), matching `.strip().split(",")[0].strip()` in the source. -/
def parse_zone_spec_amended (cause : Str) : Str :=
  match splitOnce ':' cause with
  | some (_, second) => pyStrip ((pyStrip second).takeWhile (fun c => !(c == ',')))
  | none => pyStrip cause

/-- `needle` matches at the start of `hay` (Python `hay.startswith(needle)`). -/
def leadsWith : Str → Str → Bool
  | [], _ => true
  | _ :: _, [] => false
  | a :: as, b :: bs => a == b && leadsWith as bs

/-- `needle` occurs somewhere in `hay` (Python `needle in hay`). -/
def occursIn (needle : Str) : Str → Bool
  | [] => leadsWith needle []
  | c :: t => leadsWith needle (c :: t) || occursIn needle t

theorem leadsWith_append (b c : Str) : leadsWith b (b ++ c) = true := by
  induction b with
  | nil => simp [leadsWith]
  | cons x xs ih => simp [leadsWith, ih]

theorem occursIn_append_right (n h₁ h₂ : Str) (h : occursIn n h₂ = true) :
    occursIn n (h₁ ++ h₂) = true := by
  induction h₁ with
  | nil => simpa using h
  | cons c t ih =>
      show (leadsWith n (c :: (t ++ h₂)) || occursIn n (t ++ h₂)) = true
      simp [ih]

theorem occursIn_here (n c : Str) : occursIn n (n ++ c) = true := by
  cases n with
  | nil => cases c <;> simp [occursIn, leadsWith]
  | cons x xs =>
      show (leadsWith (x :: xs) ((x :: xs) ++ c) || occursIn (x :: xs) (xs ++ c)) = true
      rw [leadsWith_append, Bool.true_or]

/-- A string occurs in any string of which it is the middle part. -/
theorem occursIn_sandwich (a b c : Str) : occursIn b (a ++ b ++ c) = true := by
  rw [List.append_assoc]
  exact occursIn_append_right b a (b ++ c) (occursIn_here b c)

/-- Python `s.lower()`, restricted to its ASCII behaviour. -/
def pyLower (s : Str) : Str := s.map Char.toLower

/-- Round-half-to-even on rationals: the rounding Python applies when
formatting a float with `:.0f`. -/
def pyRoundHalfEven (q : ℚ) : ℤ :=
  let f : ℤ := q.num.fdiv q.den
  let r : ℚ := q - (f : ℚ)
  if r < 1 / 2 then f
  else if 1 / 2 < r then f + 1
  else if f % 2 = 0 then f else f + 1

/-- Python `f"{q:.0f}"`: the rounded value in decimal, keeping the sign of
a negative value that rounds to zero. -/
def pyFmt0f (q : ℚ) : Str :=
  if q < 0 ∧ pyRoundHalfEven q = 0 then strOf "-0"
  else strOf (toString (pyRoundHalfEven q))

/-- `Engine._alert_text` of rules_engine.py: specialized copies for zones
whose lowercased name mentions litter or drink/water, a generic copy
otherwise. The three leading characters transcribe the bytes of the
mojibake mouse emoji present in the source file. -/
def alert_text (mname mid zname : Str) (idle threshold : ℚ) : Str :=
  let zlow := pyLower zname
  let tail := strOf " minutes (threshold " ++ pyFmt0f threshold ++
    strOf "m)\nMonitor: " ++ mname ++ strOf " (ID " ++ mid ++ strOf ")"
  if occursIn (strOf "litter") zlow then
    strOf "ðŸ­ Mouse not in litter zone for " ++ pyFmt0f idle ++ tail
  else if occursIn (strOf "drink") zlow || occursIn (strOf "water") zlow then
    strOf "ðŸ­ Mouse not drinking for " ++ pyFmt0f idle ++ tail
  else
    strOf "ðŸ­ No activity in \x27" ++ zname ++ strOf "\x27 for " ++
      pyFmt0f idle ++ tail

/-- `Engine.note`: record activity, setting `last_seen["mid:zone"] = now`
(the write-through save persists exactly this state). -/
def note (st : PersistedState) (mid zone : Str) (now : ℚ) : PersistedState :=
  { st with last_seen := dictSet st.last_seen (mkKey mid zone) now }

/-- `Engine.should_alert`: the suppression gate. A missing prior alert
reads as timestamp 0, and the gate opens only when more than
`suppress_min` minutes have passed since it. -/
def should_alert (st : PersistedState) (key : Str) (suppress_min now : ℚ) : Bool :=
  let last := (dictGet st.last_alert key).getD 0
  decide (minutes_since now last > suppress_min)

/-- `Engine.mark_alert`: consume the suppression window, setting
`last_alert[key] = now`. -/
def mark_alert (st : PersistedState) (key : Str) (now : ℚ) : PersistedState :=
  { st with last_alert := dictSet st.last_alert key now }

/-- One dispatched alert: its state key, the text sent, and the outcome of
each channel send (`send_telegram` / `send_whatsapp` swallow their own
errors, so outcomes never influence control flow). -/
structure Alert where
  key : Str
  text : Str
  telegramOk : Bool
  whatsappOk : Bool
deriving DecidableEq

/-- One configured (monitor, zone) pair as the check pass iterates it:
monitor id, monitor display name (already defaulted), zone name, zone
config. -/
abbrev CheckedPair := Str × Str × Str × ZoneConf

/-- The state key of a checked pair. -/
def pairKey (p : CheckedPair) : Str := mkKey p.1 p.2.2.1

/-- The pairs a check pass iterates, in source order: monitors of the
config (an absent or null map reads as empty), each with its zones, the
monitor name defaulting to `f"Monitor {mid}"`. -/
def configPairs (cfg : Config) : List CheckedPair :=
  (cfg.monitors.getD []).flatMap fun m =>
    (m.2.zones.getD []).map fun z =>
      (m.1, m.2.name.getD (strOf "Monitor " ++ m.1), z.1, z.2)

/-- The body of the check loop for one (monitor, zone) pair: threshold
defaulting to 60, skip when the last-seen entry is missing or falsy (0.0),
alert when the idle minutes exceed the threshold and the suppression gate
allows it, then mark the alert. `tg` and `wa` give each channel's delivery
outcome for a text. -/
def checkPair (tg wa : Str → Bool) (suppress_min now : ℚ) (st : PersistedState)
    (p : CheckedPair) : PersistedState × Option Alert :=
  let max_idle := p.2.2.2.max_inactive_minutes.getD 60
  let key := pairKey p
  match dictGet st.last_seen key with
  | none => (st, none)
  | some last =>
      if last = 0 then (st, none)
      else
        let idle := minutes_since now last
        if idle > max_idle ∧ should_alert st key suppress_min now = true then
          let text := alert_text p.2.1 p.1 p.2.2.1 idle max_idle
          (mark_alert st key now, some ⟨key, text, tg text, wa text⟩)
        else (st, none)

/-- One exception-free check pass over a list of pairs, threading the
state and collecting dispatched alerts in order. -/
def checkPassAux (tg wa : Str → Bool) (suppress_min now : ℚ) :
    List CheckedPair → PersistedState → PersistedState × List Alert
  | [], st => (st, [])
  | p :: rest, st =>
      let r := checkPair tg wa suppress_min now st p
      let f := checkPassAux tg wa suppress_min now rest r.1
      (f.1, r.2.toList ++ f.2)

/-- One full check pass, as run by `Engine.check_loop` each minute and by
`one_shot_check`: suppression window defaulting to 30 minutes, pairs in
config order. -/
def checkPass (tg wa : Str → Bool) (cfg : Config) (st : PersistedState)
    (now : ℚ) : PersistedState × List Alert :=
  checkPassAux tg wa (cfg.suppress_minutes.getD 30) now (configPairs cfg) st

/-- Result of a check pass in which a pair's evaluation may raise:
`completed` carries the final state and alerts, `raised` carries the state
and alerts accumulated before the raising pair (in-place state mutations
already performed survive the exception). -/
inductive PassOutcome where
  | completed (st : PersistedState) (alerts : List Alert)
  | raised (st : PersistedState) (alerts : List Alert)
deriving DecidableEq

/-- A check pass under a fault model: `raising key = true` marks a pair
whose evaluation raises (for example a state-file write error during
`mark_alert`); the first raising pair aborts the pass. -/
def checkPassE (raising : Str → Bool) (tg wa : Str → Bool)
    (suppress_min now : ℚ) :
    List CheckedPair → PersistedState → PassOutcome
  | [], st => .completed st []
  | p :: rest, st =>
      if raising (pairKey p) then .raised st []
      else
        let r := checkPair tg wa suppress_min now st p
        match checkPassE raising tg wa suppress_min now rest r.1 with
        | .completed stf as => .completed stf (r.2.toList ++ as)
        | .raised stf as => .raised stf (r.2.toList ++ as)

/-- One iteration of `Engine.check_loop`: the whole pass runs inside one
try block; a completed pass sleeps 60 seconds, an exception is logged and
the loop sleeps 5 seconds before retrying the whole pass. Returns the
state, the alerts dispatched, and the seconds slept. -/
def check_loop_iter (raising tg wa : Str → Bool) (cfg : Config)
    (st : PersistedState) (now : ℚ) : PersistedState × List Alert × ℕ :=
  match checkPassE raising tg wa (cfg.suppress_minutes.getD 30) now
      (configPairs cfg) st with
  | .completed stf as => (stf, as, 60)
  | .raised stf as => (stf, as, 5)

/-- A raise-free `checkPassE` is the plain check pass. -/
theorem checkPassE_no_raise (tg wa : Str → Bool) (suppress_min now : ℚ)
    (ps : List CheckedPair) (st : PersistedState) :
    checkPassE (fun _ => false) tg wa suppress_min now ps st =
      .completed (checkPassAux tg wa suppress_min now ps st).1
        (checkPassAux tg wa suppress_min now ps st).2 := by
  induction ps generalizing st with
  | nil => simp [checkPassE, checkPassAux]
  | cons p rest ih => simp [checkPassE, checkPassAux, ih]

/-- One observable outcome of an iteration of `Engine.ws_loop`:
`connectFail` when `create_connection` raises, `sessionDrop` when the
connection succeeded (resetting the backoff to 2) and a later receive
raised. Both end in the except clause that sleeps and doubles the backoff. -/
inductive WsEvent where
  | connectFail
  | sessionDrop
deriving DecidableEq

/-- The except clause of `ws_loop` seen from a backoff value `b`: the
seconds slept and the next backoff, `time.sleep(backoff)` then
`backoff = min(backoff*2, 30)`, with `backoff = 2` having been re-run on a
successful connect. -/
def wsStep (b : ℕ) : WsEvent → ℕ × ℕ
  | .connectFail => (b, min (b * 2) 30)
  | .sessionDrop => (2, min (2 * 2) 30)

/-- Run `ws_loop` from backoff `b` over a trace of events: the list of
sleeps performed and the final backoff value. -/
def wsRunFrom (b : ℕ) : List WsEvent → List ℕ × ℕ
  | [] => ([], b)
  | e :: t =>
      let s := wsStep b e
      let r := wsRunFrom s.2 t
      (s.1 :: r.1, r.2)

/-- Run `ws_loop` from its initial `backoff = 2`. -/
def wsRun (es : List WsEvent) : List ℕ × ℕ := wsRunFrom 2 es

/-- How `load_yaml` can see its source: the file is missing (`open`
raises), the text does not parse (`yaml.safe_load` raises), or it parses
to an optional document (`None` is replaced by the empty config via
`or {}`). -/
inductive YamlSource where
  | missing
  | malformed
  | parsed (doc : Option Config)
deriving DecidableEq

/-- The empty config `{}`. -/
def emptyConfig : Config := ⟨none, none, none⟩

/-- `load_yaml` of rules_engine.py: re-raises the underlying exception on
a missing or unparsable file (which aborts daemon startup, since `main`
does not catch it) and otherwise returns the parsed document unchanged —
no structural validation of any kind is applied. -/
def load_yaml : YamlSource → Except Str Config
  | .missing => .error (strOf "FileNotFoundError")
  | .malformed => .error (strOf "YAMLError")
  | .parsed none => .ok emptyConfig
  | .parsed (some c) => .ok c

/-- JSON documents as far as the state file needs them. -/
inductive Json where
  | num (q : ℚ)
  | str (s : Str)
  | obj (fields : List (Str × Json))

/-- A string-to-timestamp map as `json.dump` writes it. -/
def encodeMap (m : List (Str × ℚ)) : Json :=
  .obj (m.map fun p => (p.1, .num p.2))

/-- The document `save_state` writes (atomically, via a temp file and
`os.replace`): one object holding both maps. -/
def save_state (st : PersistedState) : Json :=
  .obj [(strOf "last_seen", encodeMap st.last_seen),
        (strOf "last_alert", encodeMap st.last_alert)]

/-- Read a saved map back: every field must be a number. -/
def decodeMap : Json → Option (List (Str × ℚ))
  | .obj fields => decodeFields fields
  | _ => none
where
  decodeFields : List (Str × Json) → Option (List (Str × ℚ))
    | [] => some []
    | (k, .num q) :: t =>
        match decodeFields t with
        | some m => some ((k, q) :: m)
        | none => none
    | _ => none

/-- Read a saved state document back as the two maps `json.load`
reconstructs. -/
def decodeState : Json → Option PersistedState
  | .obj [(k1, v1), (k2, v2)] =>
      if k1 = strOf "last_seen" then
        if k2 = strOf "last_alert" then
          match decodeMap v1, decodeMap v2 with
          | some a, some b => some ⟨a, b⟩
          | _, _ => none
        else none
      else none
  | _ => none

/-- `load_state` of rules_engine.py on the documents `save_state` writes:
a missing or unreadable file (`none`) and a document not of the saved
shape read as the empty-but-valid state; a saved document reads back as
its two maps. -/
def load_state (file : Option Json) : PersistedState :=
  match file with
  | none => ⟨[], []⟩
  | some j => (decodeState j).getD ⟨[], []⟩


theorem checkPair_last_seen (tg wa : Str → Bool) (sup now : ℚ)
    (st : PersistedState) (p : CheckedPair) :
    (checkPair tg wa sup now st p).1.last_seen = st.last_seen := by
  simp only [checkPair]
  cases hdg : dictGet st.last_seen (pairKey p) with
  | none => rfl
  | some last =>
      by_cases h0 : last = 0
      · simp [h0]
      · simp only [if_neg h0]
        by_cases hc : (minutes_since now last > p.2.2.2.max_inactive_minutes.getD 60) ∧
            should_alert st (pairKey p) sup now = true
        · simp only [if_pos hc]; rfl
        · simp only [if_neg hc]

theorem checkPair_cases (tg wa : Str → Bool) (sup now : ℚ)
    (st : PersistedState) (p : CheckedPair) :
    checkPair tg wa sup now st p = (st, none) ∨
    ((checkPair tg wa sup now st p).1 = mark_alert st (pairKey p) now ∧
      ∃ a : Alert, (checkPair tg wa sup now st p).2 = some a ∧ a.key = pairKey p) := by
  simp only [checkPair]
  cases hdg : dictGet st.last_seen (pairKey p) with
  | none => exact Or.inl rfl
  | some last =>
      by_cases h0 : last = 0
      · simp [h0]
      · simp only [if_neg h0]
        by_cases hc : (minutes_since now last > p.2.2.2.max_inactive_minutes.getD 60) ∧
            should_alert st (pairKey p) sup now = true
        · rw [if_pos hc]
          exact Or.inr ⟨rfl, _, rfl, rfl⟩
        · rw [if_neg hc]
          exact Or.inl rfl

theorem checkPair_gated (tg wa : Str → Bool) (sup now : ℚ)
    (st : PersistedState) (p : CheckedPair)
    (h : should_alert st (pairKey p) sup now = false) :
    checkPair tg wa sup now st p = (st, none) := by
  simp only [checkPair]
  cases hdg : dictGet st.last_seen (pairKey p) with
  | none => rfl
  | some last =>
      by_cases h0 : last = 0
      · simp [h0]
      · simp only [if_neg h0]
        have hc : ¬ ((minutes_since now last > p.2.2.2.max_inactive_minutes.getD 60) ∧
            should_alert st (pairKey p) sup now = true) := by
          intro hcc
          rw [h] at hcc
          exact Bool.false_ne_true hcc.2
        simp only [if_neg hc]

theorem checkPair_outcomes (tg wa tg' wa' : Str → Bool) (sup now : ℚ)
    (st : PersistedState) (p : CheckedPair) :
    (checkPair tg wa sup now st p).1 = (checkPair tg' wa' sup now st p).1 ∧
    (checkPair tg wa sup now st p).2.map Alert.key =
      (checkPair tg' wa' sup now st p).2.map Alert.key := by
  simp only [checkPair]
  cases hdg : dictGet st.last_seen (pairKey p) with
  | none => exact ⟨rfl, rfl⟩
  | some last =>
      by_cases h0 : last = 0
      · simp [h0]
      · simp only [if_neg h0]
        by_cases hc : (minutes_since now last > p.2.2.2.max_inactive_minutes.getD 60) ∧
            should_alert st (pairKey p) sup now = true
        · rw [if_pos hc, if_pos hc]
          exact ⟨rfl, rfl⟩
        · rw [if_neg hc, if_neg hc]
          exact ⟨rfl, rfl⟩

theorem checkPair_unseen (tg wa : Str → Bool) (sup now : ℚ)
    (st : PersistedState) (p : CheckedPair)
    (h : dictGet st.last_seen (pairKey p) = none) :
    checkPair tg wa sup now st p = (st, none) := by
  simp only [checkPair, h]

theorem checkPassAux_last_seen (tg wa : Str → Bool) (sup now : ℚ) :
    ∀ (ps : List CheckedPair) (st : PersistedState),
      (checkPassAux tg wa sup now ps st).1.last_seen = st.last_seen := by
  intro ps
  induction ps with
  | nil => intro st; rfl
  | cons p rest ih =>
      intro st
      simp only [checkPassAux]
      rw [ih ((checkPair tg wa sup now st p).1)]
      exact checkPair_last_seen tg wa sup now st p

theorem checkPassAux_unseen (tg wa : Str → Bool) (sup now : ℚ) (key : Str) :
    ∀ (ps : List CheckedPair) (st : PersistedState),
      dictGet st.last_seen key = none →
      key ∉ (checkPassAux tg wa sup now ps st).2.map Alert.key := by
  intro ps
  induction ps with
  | nil =>
      intro st h
      simp [checkPassAux]
  | cons p rest ih =>
      intro st h
      simp only [checkPassAux]
      rcases checkPair_cases tg wa sup now st p with hnone | ⟨hst, a, ha, hkey⟩
      · rw [hnone]
        simpa using ih st h
      · have hkp : pairKey p ≠ key := by
          intro hkp
          have hz := checkPair_unseen tg wa sup now st p (by rw [hkp]; exact h)
          rw [hz] at ha
          exact Option.noConfusion ha
        have hseen2 : dictGet ((checkPair tg wa sup now st p).1).last_seen key = none := by
          rw [checkPair_last_seen]; exact h
        have htail := ih ((checkPair tg wa sup now st p).1) hseen2
        rw [ha]
        intro hmem
        rw [Option.toList_some, List.map_append] at hmem
        rcases List.mem_append.mp hmem with hh | hh
        · rw [List.map_singleton, List.mem_singleton] at hh
          rw [hkey] at hh
          exact hkp hh.symm
        · exact htail hh

theorem checkPassAux_suppressed (tg wa : Str → Bool) (sup now : ℚ) (key : Str)
    (T : ℚ) (hgate : ¬ minutes_since now T > sup) :
    ∀ (ps : List CheckedPair) (st : PersistedState),
      dictGet st.last_alert key = some T →
      key ∉ (checkPassAux tg wa sup now ps st).2.map Alert.key ∧
      dictGet (checkPassAux tg wa sup now ps st).1.last_alert key = some T := by
  intro ps
  induction ps with
  | nil =>
      intro st h
      exact ⟨by simp [checkPassAux], by simpa [checkPassAux] using h⟩
  | cons p rest ih =>
      intro st h
      simp only [checkPassAux]
      by_cases hkp : pairKey p = key
      · have hgclosed : should_alert st (pairKey p) sup now = false := by
          simp only [should_alert, hkp, h, Option.getD_some]
          exact decide_eq_false hgate
        rw [checkPair_gated tg wa sup now st p hgclosed]
        simpa using ih st h
      · rcases checkPair_cases tg wa sup now st p with hnone | ⟨hst, a, ha, hkey⟩
        · rw [hnone]
          simpa using ih st h
        · have halert : dictGet ((checkPair tg wa sup now st p).1).last_alert key = some T := by
            rw [hst]
            simp only [mark_alert]
            rw [dictGet_dictSet_ne st.last_alert (pairKey p) key now (Ne.symm hkp)]
            exact h
          have htail := ih ((checkPair tg wa sup now st p).1) halert
          constructor
          · rw [ha]
            intro hmem
            rw [Option.toList_some, List.map_append] at hmem
            rcases List.mem_append.mp hmem with hh | hh
            · rw [List.map_singleton, List.mem_singleton] at hh
              rw [hkey] at hh
              exact hkp hh.symm
            · exact htail.1 hh
          · exact htail.2

theorem checkPassAux_persists_now (tg wa : Str → Bool) (sup now : ℚ) (key : Str) :
    ∀ (ps : List CheckedPair) (st : PersistedState),
      dictGet st.last_alert key = some now →
      dictGet (checkPassAux tg wa sup now ps st).1.last_alert key = some now := by
  intro ps
  induction ps with
  | nil =>
      intro st h
      simpa [checkPassAux] using h
  | cons p rest ih =>
      intro st h
      simp only [checkPassAux]
      rcases checkPair_cases tg wa sup now st p with hnone | ⟨hst, a, ha, hkey⟩
      · rw [hnone]
        exact ih st h
      · refine ih ((checkPair tg wa sup now st p).1) ?_
        rw [hst]
        simp only [mark_alert]
        by_cases hkp : pairKey p = key
        · rw [hkp, dictGet_dictSet_same]
        · rw [dictGet_dictSet_ne st.last_alert (pairKey p) key now (Ne.symm hkp)]
          exact h

theorem checkPassAux_alerted_now (tg wa : Str → Bool) (sup now : ℚ) (key : Str) :
    ∀ (ps : List CheckedPair) (st : PersistedState),
      key ∈ (checkPassAux tg wa sup now ps st).2.map Alert.key →
      dictGet (checkPassAux tg wa sup now ps st).1.last_alert key = some now := by
  intro ps
  induction ps with
  | nil =>
      intro st h
      simp [checkPassAux] at h
  | cons p rest ih =>
      intro st h
      simp only [checkPassAux] at h ⊢
      rcases checkPair_cases tg wa sup now st p with hnone | ⟨hst, a, ha, hkey⟩
      · rw [hnone] at h ⊢
        simp only at h
        simpa using ih st (by simpa using h)
      · rw [ha] at h
        rw [Option.toList_some, List.map_append] at h
        rcases List.mem_append.mp h with hh | hh
        · rw [List.map_singleton, List.mem_singleton] at hh
          refine checkPassAux_persists_now tg wa sup now key rest _ ?_
          rw [hst]
          simp only [mark_alert]
          rw [hh, hkey]
          exact dictGet_dictSet_same st.last_alert (pairKey p) now
        · exact ih ((checkPair tg wa sup now st p).1) hh

theorem checkPassAux_outcomes (tg wa tg' wa' : Str → Bool) (sup now : ℚ) :
    ∀ (ps : List CheckedPair) (st : PersistedState),
      (checkPassAux tg wa sup now ps st).1 = (checkPassAux tg' wa' sup now ps st).1 ∧
      (checkPassAux tg wa sup now ps st).2.map Alert.key =
        (checkPassAux tg' wa' sup now ps st).2.map Alert.key := by
  intro ps
  induction ps with
  | nil =>
      intro st
      exact ⟨rfl, rfl⟩
  | cons p rest ih =>
      intro st
      simp only [checkPassAux]
      obtain ⟨hp1, hp2⟩ := checkPair_outcomes tg wa tg' wa' sup now st p
      obtain ⟨ht1, ht2⟩ := ih ((checkPair tg wa sup now st p).1)
      constructor
      · rw [← hp1]
        exact ht1
      · rw [← hp1, List.map_append, List.map_append, ht2]
        congr 1
        cases hq : (checkPair tg wa sup now st p).2 with
        | none =>
            cases hq' : (checkPair tg' wa' sup now st p).2 with
            | none => rfl
            | some b =>
                rw [hq, hq'] at hp2
                exact absurd hp2 (by simp)
        | some a =>
            cases hq' : (checkPair tg' wa' sup now st p).2 with
            | none =>
                rw [hq, hq'] at hp2
                exact absurd hp2 (by simp)
            | some b =>
                rw [hq, hq'] at hp2
                have hab : a.key = b.key := by simpa using hp2
                simp [hab]

theorem leadsWith_extend (n : Str) : ∀ (h e : Str), leadsWith n h = true →
    leadsWith n (h ++ e) = true := by
  induction n with
  | nil => intro h e _; simp [leadsWith]
  | cons a as ih =>
      intro h e hl
      cases h with
      | nil => exact absurd hl (by simp [leadsWith])
      | cons b bs =>
          simp only [leadsWith, Bool.and_eq_true] at hl
          simp only [List.cons_append, leadsWith, Bool.and_eq_true]
          exact ⟨hl.1, ih bs e hl.2⟩

theorem occursIn_nil_needle (h : Str) : occursIn [] h = true := by
  cases h <;> rfl

theorem occursIn_append_left (n : Str) : ∀ (h₁ h₂ : Str), occursIn n h₁ = true →
    occursIn n (h₁ ++ h₂) = true := by
  intro h₁
  induction h₁ with
  | nil =>
      intro h₂ h
      cases n with
      | nil => exact occursIn_nil_needle h₂
      | cons a as => exact absurd h (by simp [occursIn, leadsWith])
  | cons c t ih =>
      intro h₂ h
      show (leadsWith n (c :: (t ++ h₂)) || occursIn n (t ++ h₂)) = true
      cases hb : leadsWith n (c :: t) with
      | true =>
          have hext := leadsWith_extend n (c :: t) h₂ hb
          rw [List.cons_append] at hext
          rw [hext, Bool.true_or]
      | false =>
          have hrest : occursIn n t = true := by
            have hsplit : (leadsWith n (c :: t) || occursIn n t) = true := h
            rw [hb, Bool.false_or] at hsplit
            exact hsplit
          rw [ih h₂ hrest, Bool.or_true]

/-- Concrete fixtures used by witnesses and counterexamples: the litter
zone of the spec scenario (keyword "litter", threshold 60 minutes). -/
def zoneLitter : ZoneConf := ⟨some (strOf "litter"), some 60⟩

/-- A second zone on the same monitor, matching water activity. -/
def zoneWater : ZoneConf := ⟨some (strOf "water"), some 60⟩

/-- The spec scenario config: monitor "12" named "Cage Cam" with the
litter zone, suppression 30 minutes. -/
def cfgLitter : Config :=
  ⟨none, some 30,
    some [(strOf "12", ⟨some (strOf "Cage Cam"), some [(strOf "Litter", zoneLitter)]⟩)]⟩

/-- A config with two zones under monitor "12". -/
def cfgTwoZones : Config :=
  ⟨none, some 30,
    some [(strOf "12",
      ⟨some (strOf "Cage Cam"),
        some [(strOf "Litter", zoneLitter), (strOf "Water", zoneWater)]⟩)]⟩

/-- State in which both zones were last seen at time 1800, i.e. 90 minutes
before the check time 7200 used below. -/
def stBoth : PersistedState :=
  ⟨[(strOf "12:Litter", 1800), (strOf "12:Water", 1800)], []⟩

/-- Fault model for C5: evaluating the pair with key "12:Litter" raises. -/
def raisingLitter : Str → Bool := fun k => decide (k = strOf "12:Litter")


/-- State of the spec scenario: key "12:Litter" last seen at time 1800,
i.e. 90 minutes before the check time 7200 used below. -/
def stLitter90 : PersistedState := ⟨[(strOf "12:Litter", 1800)], []⟩

/-- A spec scenario, checked against the model: with the litter zone
backdated 90 minutes, one check pass at time 7200 dispatches exactly one
alert, for key "12:Litter". -/
theorem scenario_backdate_one_alert :
    ((checkPass (fun _ => true) (fun _ => true) cfgLitter stLitter90 7200).2.map Alert.key)
      = [strOf "12:Litter"] := by
  with_unfolding_all decide

/-- C10: `Engine.note` changes only the `last_seen` entry of its own
composite key (setting it to now) and leaves every other `last_seen` entry
and the whole `last_alert` map unchanged; `Engine.mark_alert` changes only
the `last_alert` entry of its key and leaves the whole `last_seen` map and
every other `last_alert` entry unchanged. -/
theorem note_mark_alert_frame (st : PersistedState) (mid zone : Str)
    (now : ℚ) (key k : Str) :
    ((note st mid zone now).last_alert = st.last_alert ∧
      dictGet (note st mid zone now).last_seen (mkKey mid zone) = some now ∧
      (k ≠ mkKey mid zone →
        dictGet (note st mid zone now).last_seen k = dictGet st.last_seen k)) ∧
    ((mark_alert st key now).last_seen = st.last_seen ∧
      dictGet (mark_alert st key now).last_alert key = some now ∧
      (k ≠ key →
        dictGet (mark_alert st key now).last_alert k = dictGet st.last_alert k)) := by
  refine ⟨⟨rfl, ?_, ?_⟩, rfl, ?_, ?_⟩
  · exact dictGet_dictSet_same st.last_seen (mkKey mid zone) now
  · intro hk
    exact dictGet_dictSet_ne st.last_seen (mkKey mid zone) k now hk
  · exact dictGet_dictSet_same st.last_alert key now
  · intro hk
    exact dictGet_dictSet_ne st.last_alert key k now hk

/-- Cause text of the spec scenario, whose comma-bearing tail separates
the code from the spec sentence on zone-hint extraction. -/
def causeLitter : Str := strOf "Linked: Litter Zone, obj: motion"

/-- C4 counterexample: on the cause "Linked: Litter Zone, obj: motion"
the code yields "Litter Zone" (it truncates the second segment at its
first comma) while the claimed extraction yields the whole trimmed second
segment "Litter Zone, obj: motion", so the two differ. -/
theorem parse_zone_comma_cex :
    parse_zone_from_cause causeLitter = strOf "Litter Zone" ∧
    parse_zone_spec causeLitter = strOf "Litter Zone, obj: motion" ∧
    parse_zone_from_cause causeLitter ≠ parse_zone_spec causeLitter := by
  refine ⟨by decide, by decide, by decide⟩

/-- C4 as amended: zone-hint extraction splits on the first colon; when a
second segment exists the hint is that segment trimmed, truncated at its
first comma, and trimmed again; otherwise it is the original cause
trimmed. The code equals this description on every cause string. -/
theorem parse_zone_eq_amended (cause : Str) :
    parse_zone_from_cause cause = parse_zone_spec_amended cause := by
  unfold parse_zone_from_cause parse_zone_spec_amended
  by_cases hc : cause = []
  · subst hc
    rfl
  · rw [if_neg hc]
    cases hs : splitOnce ':' cause with
    | none => rfl
    | some ab =>
        obtain ⟨a, b⟩ := ab
        dsimp only
        rw [pySplitParts_headD]

/-- Config with a negative zone threshold: structurally invalid per the
claim, accepted by the code. -/
def cfgNegThreshold : Config :=
  ⟨none, none,
    some [(strOf "12",
      ⟨some (strOf "Cage Cam"),
        some [(strOf "Litter", ⟨some (strOf "litter"), some (-5)⟩)]⟩)]⟩

/-- Config with an empty monitor map: structurally invalid per the claim,
accepted by the code. -/
def cfgEmptyMonitors : Config := ⟨none, none, some []⟩

/-- C6 counterexample: `load_yaml` returns a config (no failure) both for
a negative zone threshold and for an empty monitor map, contradicting the
claim that every structurally invalid source fails to load. -/
theorem load_yaml_accepts_invalid_cex :
    load_yaml (.parsed (some cfgNegThreshold)) = .ok cfgNegThreshold ∧
    load_yaml (.parsed (some cfgEmptyMonitors)) = .ok cfgEmptyMonitors :=
  ⟨rfl, rfl⟩

/-- C6 as amended: loading raises (and so aborts daemon startup, `main`
catching nothing) exactly when the config file is missing or unparsable;
no structural validation is applied — any parsed document, including one
with negative thresholds or an empty monitor map, is returned unchanged,
and an empty document yields the empty config. -/
theorem load_yaml_no_validation :
    load_yaml .missing = .error (strOf "FileNotFoundError") ∧
    load_yaml .malformed = .error (strOf "YAMLError") ∧
    (∀ c : Config, load_yaml (.parsed (some c)) = .ok c) ∧
    load_yaml (.parsed none) = .ok emptyConfig :=
  ⟨rfl, rfl, fun _ => rfl, rfl⟩

theorem decodeFields_encode (m : List (Str × ℚ)) :
    decodeMap.decodeFields (m.map fun p => (p.1, Json.num p.2)) = some m := by
  induction m with
  | nil => rfl
  | cons p t ih =>
      obtain ⟨k, v⟩ := p
      simp only [List.map_cons, decodeMap.decodeFields, ih]

theorem decodeMap_encodeMap (m : List (Str × ℚ)) :
    decodeMap (encodeMap m) = some m := by
  simp only [encodeMap, decodeMap]
  exact decodeFields_encode m

/-- C8: state persistence round-trips — for every persisted state, saving
it and loading the saved document returns an equal state, for arbitrary
(including non-empty) last-seen and last-alert maps. -/
theorem state_roundtrip (s : PersistedState) :
    load_state (some (save_state s)) = s := by
  obtain ⟨ls, la⟩ := s
  have h1 : decodeState (save_state ⟨ls, la⟩) = some ⟨ls, la⟩ := by
    simp [save_state, decodeState, decodeMap_encodeMap]
  simp only [load_state, h1, Option.getD_some]

theorem wsRunFrom_append (es : List WsEvent) : ∀ (b : ℕ) (e : WsEvent),
    wsRunFrom b (es ++ [e]) =
      ((wsRunFrom b es).1 ++ [(wsStep (wsRunFrom b es).2 e).1],
        (wsStep (wsRunFrom b es).2 e).2) := by
  induction es with
  | nil => intro b e; simp [wsRunFrom]
  | cons x xs ih =>
      intro b e
      simp only [List.cons_append, wsRunFrom, List.append_eq]
      rw [ih]

theorem wsRunFrom_inv (es : List WsEvent) : ∀ b : ℕ, 2 ≤ b → b ≤ 30 →
    (2 ≤ (wsRunFrom b es).2 ∧ (wsRunFrom b es).2 ≤ 30) ∧
    ∀ d ∈ (wsRunFrom b es).1, 2 ≤ d ∧ d ≤ 30 := by
  induction es with
  | nil =>
      intro b h2 h30
      exact ⟨⟨h2, h30⟩, by simp [wsRunFrom]⟩
  | cons e t ih =>
      intro b h2 h30
      cases e with
      | connectFail =>
          have hstep2 : 2 ≤ min (b * 2) 30 := by omega
          have hstep30 : min (b * 2) 30 ≤ 30 := by omega
          obtain ⟨hfin, hds⟩ := ih (min (b * 2) 30) hstep2 hstep30
          refine ⟨hfin, ?_⟩
          intro d hd
          simp only [wsRunFrom, wsStep] at hd
          rcases List.mem_cons.mp hd with hh | hh
          · subst hh; exact ⟨h2, h30⟩
          · exact hds d hh
      | sessionDrop =>
          have hstep2 : (2 : ℕ) ≤ min (2 * 2) 30 := by omega
          have hstep30 : min (2 * 2) 30 ≤ 30 := by omega
          obtain ⟨hfin, hds⟩ := ih (min (2 * 2) 30) hstep2 hstep30
          refine ⟨hfin, ?_⟩
          intro d hd
          simp only [wsRunFrom, wsStep] at hd
          rcases List.mem_cons.mp hd with hh | hh
          · subst hh; exact ⟨le_refl 2, by omega⟩
          · exact hds d hh

/-- C9: the reconnect backoff of the ingestion loop starts at the base
delay 2, every sleep stays between 2 and the 30-second cap, appending one
more connection failure to a trace sleeps exactly the current backoff and
leaves the backoff non-decreasing (so sleeps are non-decreasing across a
run of consecutive failures), and a successful connect resets the backoff
so that the sleep after its session drops is the base delay 2 again. -/
theorem backoff_properties (es : List WsEvent) :
    (wsRun []).2 = 2 ∧
    (2 ≤ (wsRun es).2 ∧ (wsRun es).2 ≤ 30) ∧
    (∀ d ∈ (wsRun es).1, 2 ≤ d ∧ d ≤ 30) ∧
    ((wsRun (es ++ [.connectFail])).1 = (wsRun es).1 ++ [(wsRun es).2] ∧
      (wsRun es).2 ≤ (wsRun (es ++ [.connectFail])).2) ∧
    (wsRun (es ++ [.sessionDrop])).1 = (wsRun es).1 ++ [2] := by
  have hinv := wsRunFrom_inv es 2 (le_refl 2) (by omega)
  refine ⟨rfl, hinv.1, hinv.2, ⟨?_, ?_⟩, ?_⟩
  · show (wsRunFrom 2 (es ++ [.connectFail])).1 =
      (wsRunFrom 2 es).1 ++ [(wsRunFrom 2 es).2]
    rw [wsRunFrom_append]
    simp [wsStep]
  · show (wsRunFrom 2 es).2 ≤ (wsRunFrom 2 (es ++ [.connectFail])).2
    rw [wsRunFrom_append]
    simp only [wsStep]
    have hb := hinv.1
    omega
  · show (wsRunFrom 2 (es ++ [.sessionDrop])).1 = (wsRunFrom 2 es).1 ++ [2]
    rw [wsRunFrom_append]
    simp [wsStep]

/-- C1: for a key with a prior alert at time T, a check pass at time T'
with (T' - T)/60 below the suppression window dispatches no alert for that
key, whatever its idle duration; and whenever the suppression window is
non-negative, a key alerted by one pass is not alerted again by a second
pass run immediately after (at the same time). -/
theorem suppression_blocks_alert (tg wa : Str → Bool) (cfg : Config)
    (st : PersistedState) (now : ℚ) (key : Str) :
    (∀ T : ℚ, dictGet st.last_alert key = some T →
      minutes_since now T < cfg.suppress_minutes.getD 30 →
      key ∉ (checkPass tg wa cfg st now).2.map Alert.key) ∧
    (0 ≤ cfg.suppress_minutes.getD 30 →
      key ∈ (checkPass tg wa cfg st now).2.map Alert.key →
      key ∉ (checkPass tg wa cfg (checkPass tg wa cfg st now).1 now).2.map Alert.key) := by
  constructor
  · intro T hT hrec
    exact (checkPassAux_suppressed tg wa (cfg.suppress_minutes.getD 30) now key T
      (lt_asymm hrec) (configPairs cfg) st hT).1
  · intro hsup hmem
    have hnow : dictGet (checkPass tg wa cfg st now).1.last_alert key = some now :=
      checkPassAux_alerted_now tg wa (cfg.suppress_minutes.getD 30) now key
        (configPairs cfg) st hmem
    have h0 : minutes_since now now = 0 := by
      simp [minutes_since]
    have hgate : ¬ minutes_since now now > cfg.suppress_minutes.getD 30 := by
      rw [h0]
      exact not_lt.mpr hsup
    exact (checkPassAux_suppressed tg wa (cfg.suppress_minutes.getD 30) now key now
      hgate (configPairs cfg) (checkPass tg wa cfg st now).1 hnow).1

/-- Witness for C1 on the spec scenario: after the pass of
`scenario_backdate_one_alert` alerted "12:Litter", an immediate second
pass dispatches no alert for that key. -/
theorem suppression_blocks_alert_witness :
    strOf "12:Litter" ∉ (checkPass (fun _ => true) (fun _ => true) cfgLitter
      (checkPass (fun _ => true) (fun _ => true) cfgLitter stLitter90 7200).1
      7200).2.map Alert.key :=
  (suppression_blocks_alert (fun _ => true) (fun _ => true) cfgLitter stLitter90
    7200 (strOf "12:Litter")).2 (by norm_num [cfgLitter])
    (by with_unfolding_all decide)

/-- C2: a configured (monitor, zone) pair whose composite key has no
last-seen entry is skipped by a check pass — no alert is ever dispatched
for that key, whatever the thresholds and the alert history. -/
theorem never_seen_no_alert (tg wa : Str → Bool) (cfg : Config)
    (st : PersistedState) (now : ℚ) (key : Str)
    (h : dictGet st.last_seen key = none) :
    key ∉ (checkPass tg wa cfg st now).2.map Alert.key :=
  checkPassAux_unseen tg wa (cfg.suppress_minutes.getD 30) now key
    (configPairs cfg) st h

/-- Witness for C2: with an empty state, the configured pair "12:Litter"
gets no alert from a check pass. -/
theorem never_seen_no_alert_witness :
    strOf "12:Litter" ∉ (checkPass (fun _ => true) (fun _ => true) cfgLitter
      ⟨[], []⟩ 7200).2.map Alert.key :=
  never_seen_no_alert (fun _ => true) (fun _ => true) cfgLitter ⟨[], []⟩ 7200
    (strOf "12:Litter") rfl

/-- C3: the final state of a check pass and the keys it alerts are the
same for every combination of channel delivery outcomes (a failed or
skipped send changes nothing), and every key the pass alerts has its
last-alert entry set to the pass time in the final state — the
suppression window is consumed by the attempt, not by a successful
delivery. -/
theorem alert_marks_state_regardless_of_delivery (tg wa tg' wa' : Str → Bool)
    (cfg : Config) (st : PersistedState) (now : ℚ) (key : Str) :
    ((checkPass tg wa cfg st now).1 = (checkPass tg' wa' cfg st now).1 ∧
      (checkPass tg wa cfg st now).2.map Alert.key =
        (checkPass tg' wa' cfg st now).2.map Alert.key) ∧
    (key ∈ (checkPass tg wa cfg st now).2.map Alert.key →
      dictGet (checkPass tg wa cfg st now).1.last_alert key = some now) :=
  ⟨checkPassAux_outcomes tg wa tg' wa' (cfg.suppress_minutes.getD 30) now
      (configPairs cfg) st,
    fun hmem => checkPassAux_alerted_now tg wa (cfg.suppress_minutes.getD 30)
      now key (configPairs cfg) st hmem⟩

/-- C5 counterexample: with both zones of `cfgTwoZones` 90 minutes idle,
an exception while evaluating the first pair ("12:Litter") leaves the
whole pass with zero alerts — the remaining pair "12:Water" is not
evaluated — while the same pass without the exception alerts both pairs. -/
theorem pair_exception_stops_pass_cex :
    (check_loop_iter raisingLitter (fun _ => true) (fun _ => true)
      cfgTwoZones stBoth 7200).2.1 = [] ∧
    ((check_loop_iter (fun _ => false) (fun _ => true) (fun _ => true)
      cfgTwoZones stBoth 7200).2.1.map Alert.key
        = [strOf "12:Litter", strOf "12:Water"]) := by
  constructor
  · with_unfolding_all decide
  · with_unfolding_all decide

/-- C5 as amended: an exception raised while evaluating one (monitor,
zone) pair aborts the rest of that check pass — the state and alerts are
those accumulated before the raising pair, pairs after it are not
evaluated in that pass — and the loop logs the error and sleeps 5 seconds
(instead of the 60-second interval) before retrying the whole pass. -/
theorem pair_exception_aborts_pass (raising tg wa : Str → Bool)
    (cfg : Config) (st : PersistedState) (now : ℚ)
    (p₁ p₂ : List CheckedPair) (pf : CheckedPair)
    (hsplit : configPairs cfg = p₁ ++ pf :: p₂)
    (h₁ : ∀ p ∈ p₁, raising (pairKey p) = false)
    (h₂ : raising (pairKey pf) = true) :
    check_loop_iter raising tg wa cfg st now =
      ((checkPassAux tg wa (cfg.suppress_minutes.getD 30) now p₁ st).1,
       (checkPassAux tg wa (cfg.suppress_minutes.getD 30) now p₁ st).2, 5) := by
  have key : ∀ (q₁ : List CheckedPair), (∀ p ∈ q₁, raising (pairKey p) = false) →
      ∀ s : PersistedState,
      checkPassE raising tg wa (cfg.suppress_minutes.getD 30) now (q₁ ++ pf :: p₂) s =
        .raised (checkPassAux tg wa (cfg.suppress_minutes.getD 30) now q₁ s).1
          (checkPassAux tg wa (cfg.suppress_minutes.getD 30) now q₁ s).2 := by
    intro q₁
    induction q₁ with
    | nil =>
        intro _ s
        simp [checkPassE, h₂, checkPassAux]
    | cons q qs ih =>
        intro hq s
        have hqf : raising (pairKey q) = false := hq q (List.mem_cons_self q qs)
        simp only [List.cons_append, checkPassE, hqf, Bool.false_eq_true, if_false,
          checkPassAux, List.append_eq]
        rw [ih (fun p hp => hq p (List.mem_cons_of_mem q hp)) _]
  unfold check_loop_iter
  rw [hsplit, key p₁ h₁ st]

/-- Witness for the C5 amended theorem at the concrete two-zone config:
the first pair raises, and the iteration returns the untouched initial
state, no alerts, and a 5-second sleep. -/
theorem pair_exception_aborts_pass_witness :
    check_loop_iter raisingLitter (fun _ => true) (fun _ => true)
        cfgTwoZones stBoth 7200 =
      ((checkPassAux (fun _ => true) (fun _ => true) 30 7200 [] stBoth).1,
       (checkPassAux (fun _ => true) (fun _ => true) 30 7200 [] stBoth).2, 5) :=
  pair_exception_aborts_pass raisingLitter (fun _ => true) (fun _ => true)
    cfgTwoZones stBoth 7200 []
    [(strOf "12", strOf "Cage Cam", strOf "Water", zoneWater)]
    (strOf "12", strOf "Cage Cam", strOf "Litter", zoneLitter)
    (by with_unfolding_all decide)
    (fun p hp => absurd hp (List.not_mem_nil p))
    (by with_unfolding_all decide)

/-- C7 counterexample: for the zone named "Litter" (threshold 60, idle
90) the specialized litter text does not contain the zone name — the
claim that every alert text contains the zone name fails. -/
theorem alert_text_missing_zone_cex :
    occursIn (strOf "Litter")
      (alert_text (strOf "Cage Cam") (strOf "12") (strOf "Litter") 90 60) = false := by
  with_unfolding_all decide

/-- C7 as amended: every alert text contains the monitor display name,
the monitor id, the idle duration rounded to whole minutes and the
configured threshold; the zone name is guaranteed to appear only when the
lowercased zone name selects no specialized copy, i.e. mentions none of
"litter", "drink" or "water". -/
theorem alert_text_contents (mname mid zname : Str) (idle threshold : ℚ) :
    occursIn mname (alert_text mname mid zname idle threshold) = true ∧
    occursIn mid (alert_text mname mid zname idle threshold) = true ∧
    occursIn (pyFmt0f idle) (alert_text mname mid zname idle threshold) = true ∧
    occursIn (pyFmt0f threshold) (alert_text mname mid zname idle threshold) = true ∧
    (occursIn (strOf "litter") (pyLower zname) = false →
      occursIn (strOf "drink") (pyLower zname) = false →
      occursIn (strOf "water") (pyLower zname) = false →
      occursIn zname (alert_text mname mid zname idle threshold) = true) := by
  simp only [alert_text]
  by_cases hl : occursIn (strOf "litter") (pyLower zname) = true
  · rw [if_pos hl]
    simp only [List.append_assoc]
    refine ⟨?_, ?_, ?_, ?_, ?_⟩
    · apply occursIn_append_right
      apply occursIn_append_right
      apply occursIn_append_right
      apply occursIn_append_right
      apply occursIn_append_right
      exact occursIn_here mname _
    · apply occursIn_append_right
      apply occursIn_append_right
      apply occursIn_append_right
      apply occursIn_append_right
      apply occursIn_append_right
      apply occursIn_append_right
      apply occursIn_append_right
      exact occursIn_here mid _
    · apply occursIn_append_right
      exact occursIn_here (pyFmt0f idle) _
    · apply occursIn_append_right
      apply occursIn_append_right
      apply occursIn_append_right
      exact occursIn_here (pyFmt0f threshold) _
    · intro h1 _ _
      rw [hl] at h1
      exact absurd h1 (by decide)
  · rw [if_neg hl]
    by_cases hd : (occursIn (strOf "drink") (pyLower zname) ||
        occursIn (strOf "water") (pyLower zname)) = true
    · rw [if_pos hd]
      simp only [List.append_assoc]
      refine ⟨?_, ?_, ?_, ?_, ?_⟩
      · apply occursIn_append_right
        apply occursIn_append_right
        apply occursIn_append_right
        apply occursIn_append_right
        apply occursIn_append_right
        exact occursIn_here mname _
      · apply occursIn_append_right
        apply occursIn_append_right
        apply occursIn_append_right
        apply occursIn_append_right
        apply occursIn_append_right
        apply occursIn_append_right
        apply occursIn_append_right
        exact occursIn_here mid _
      · apply occursIn_append_right
        exact occursIn_here (pyFmt0f idle) _
      · apply occursIn_append_right
        apply occursIn_append_right
        apply occursIn_append_right
        exact occursIn_here (pyFmt0f threshold) _
      · intro _ h2 h3
        rw [h2, h3] at hd
        exact absurd hd (by decide)
    · rw [if_neg hd]
      simp only [List.append_assoc]
      refine ⟨?_, ?_, ?_, ?_, ?_⟩
      · apply occursIn_append_right
        apply occursIn_append_right
        apply occursIn_append_right
        apply occursIn_append_right
        apply occursIn_append_right
        apply occursIn_append_right
        apply occursIn_append_right
        exact occursIn_here mname _
      · apply occursIn_append_right
        apply occursIn_append_right
        apply occursIn_append_right
        apply occursIn_append_right
        apply occursIn_append_right
        apply occursIn_append_right
        apply occursIn_append_right
        apply occursIn_append_right
        apply occursIn_append_right
        exact occursIn_here mid _
      · apply occursIn_append_right
        apply occursIn_append_right
        apply occursIn_append_right
        exact occursIn_here (pyFmt0f idle) _
      · apply occursIn_append_right
        apply occursIn_append_right
        apply occursIn_append_right
        apply occursIn_append_right
        apply occursIn_append_right
        exact occursIn_here (pyFmt0f threshold) _
      · intro _ _ _
        apply occursIn_append_right
        exact occursIn_here zname _
